import Mathlib

/-!
# Verification of the Python-Interpreter pipeline

Shallow embedding of the repository's core pipeline — `lexer.py`,
`ast_nodes.py`, `parser.py`, `interpreter.py`, and the output-capturing
subclass in `app.py` — together with theorems settling the frozen
claims about it.

Modelling conventions:
* Python numbers are `int` (arbitrary precision, modelled as `ℤ`) or
  `float`; floats are modelled as exact rationals `ℚ`.  All claims under
  verification depend only on int/float kind and on exactly-representable
  values, never on IEEE rounding.
* Python exceptions become `Except Err`; `Err` is a discriminated error
  type carrying the same data as the exception messages, with `Err.render`
  producing the exact message string the source builds.
* The lexer's cursor (`pos` / `current_char`) is represented by the list
  of not-yet-consumed characters `rest`, so `current_char` is `rest.head?`
  and `peek` is `rest.get? 1`.
* The unbounded `while` loops of `get_next_token` / `tokenize` and the
  mutually recursive parser productions take a fuel argument so that all
  definitions compute by kernel reduction; fuel exhaustion is the
  distinguished `Err.fuel`, and for the lexer wrappers we prove fuel
  `length + 1` never exhausts.
* Python's character predicates are modelled on the ASCII range (the only
  range the language's grammar ever accepts).
-/

namespace PyInterp

/-- A runtime value: Python `int` or `float` (float carried as an exact
rational). -/
inductive Value where
  | int (n : ℤ)
  | float (q : ℚ)
deriving DecidableEq, Repr

/-- Numeric content of a value, used for Python's cross-kind `==` and for
`/`. -/
def Value.toRat : Value → ℚ
  | .int n => (n : ℚ)
  | .float q => q

/-- Python numeric equality (`==`), which compares `int` and `float` by
value. -/
def pyEq (v w : Value) : Bool := decide (v.toRat = w.toRat)

/-- `v == 0` as used by the interpreter's division-by-zero guard. -/
def pyEqZero (v : Value) : Bool := decide (v.toRat = 0)

/-- Errors raised by the pipeline.  The source raises `Exception(msg)`;
we keep the category and payload and render the message separately. -/
inductive Err where
  | fuel
  | lexError (line column : Nat) (msg : String)
  | parseError (line column : Nat) (msg : String)
  | runtimeError (msg : String)
  | valueError (msg : String)
  | typeError (msg : String)
deriving DecidableEq, Repr

/-- The exact exception message the source constructs. -/
def Err.render : Err → String
  | .fuel => "[model] out of fuel"
  | .lexError l c m =>
      "Lexer error at line " ++ toString l ++ ", column " ++ toString c ++ ": " ++ m
  | .parseError l c m =>
      "Parser error at line " ++ toString l ++ ", column " ++ toString c ++ ": " ++ m
  | .runtimeError m => "Runtime error: " ++ m
  | .valueError m => m
  | .typeError m => m

/-! ## Tokens (`lexer.py`, `TokenType` / `Token`) -/

/-- `TokenType`: the closed enumeration of token kinds. -/
inductive TokenType where
  | NUMBER | ID | LET | PRINT
  | PLUS | MINUS | MUL | DIV | ASSIGN
  | LPAREN | RPAREN | SEMI
  | EOF
deriving DecidableEq, Repr

/-- Python's `str(TokenType.X)` as interpolated into parser error
messages. -/
def TokenType.render : TokenType → String
  | .NUMBER => "TokenType.NUMBER"
  | .ID => "TokenType.ID"
  | .LET => "TokenType.LET"
  | .PRINT => "TokenType.PRINT"
  | .PLUS => "TokenType.PLUS"
  | .MINUS => "TokenType.MINUS"
  | .MUL => "TokenType.MUL"
  | .DIV => "TokenType.DIV"
  | .ASSIGN => "TokenType.ASSIGN"
  | .LPAREN => "TokenType.LPAREN"
  | .RPAREN => "TokenType.RPAREN"
  | .SEMI => "TokenType.SEMI"
  | .EOF => "TokenType.EOF"

/-- A token's `value` attribute: a number for NUMBER tokens, the matched
text for identifiers/keywords/operators, `none` for EOF. -/
inductive TokenValue where
  | num (v : Value)
  | str (s : String)
deriving DecidableEq, Repr

/-- `Token`: kind, optional value, and source position. -/
structure Token where
  type : TokenType
  value : Option TokenValue
  line : Nat
  column : Nat
deriving DecidableEq, Repr

/-! ## Lexer state and character predicates -/

/-- Lexer state: the unconsumed suffix of the input (the source tracks
`pos` into the full text; `rest` is `text[pos:]`, `current_char` is
`rest.head?`, `peek` is `rest.get? 1`), plus `line` and `column`. -/
structure LexState where
  rest : List Char
  line : Nat
  column : Nat
deriving DecidableEq, Repr

/-- Python `str.isspace` restricted to ASCII. -/
def pyIsSpace (c : Char) : Bool :=
  c == ' ' || c == '\t' || c == '\n' || c == '\r' || c == '\x0b' || c == '\x0c'

/-- Python `str.isdigit` restricted to ASCII. -/
def pyIsDigit (c : Char) : Bool := '0' ≤ c && c ≤ '9'

/-- Python `str.isalpha` restricted to ASCII. -/
def pyIsAlpha (c : Char) : Bool :=
  ('a' ≤ c && c ≤ 'z') || ('A' ≤ c && c ≤ 'Z')

/-- Python `str.isalnum` restricted to ASCII. -/
def pyIsAlnum (c : Char) : Bool := pyIsDigit c || pyIsAlpha c

/-- `Lexer.skip_whitespace`: advance while the current character is
whitespace, maintaining line/column exactly as `advance` does. -/
def skipWsAux : List Char → Nat → Nat → LexState
  | [], line, column => ⟨[], line, column⟩
  | c :: cs, line, column =>
    if pyIsSpace c then
      if c = '\n' then skipWsAux cs (line + 1) 1
      else skipWsAux cs line (column + 1)
    else ⟨c :: cs, line, column⟩

/-- `Lexer.skip_comment` body: advance while the current character is not
a newline, then consume the newline if present.  Called with the state
still sitting on the first `/`. -/
def skipCommentAux : List Char → Nat → Nat → LexState
  | [], line, column => ⟨[], line, column⟩
  | c :: cs, line, column =>
    if c = '\n' then ⟨cs, line + 1, 1⟩
    else skipCommentAux cs line (column + 1)

/-- Digit run to a natural number (Python `int(result)` on a digit
string). -/
def digitsToNat : List Char → Nat :=
  List.foldl (fun n c => n * 10 + (c.toNat - '0'.toNat)) 0

/-- Split a character run on `.` (used to model Python `float(result)`). -/
def splitDots : List Char → List (List Char)
  | [] => [[]]
  | '.' :: cs => [] :: splitDots cs
  | c :: cs =>
    match splitDots cs with
    | [] => [[c]]
    | p :: ps => (c :: p) :: ps

/-- Python `float(result)` on the digits-and-dots run the lexer
accumulated: defined (as an exact rational) when the run has at most one
`.`, and `none` — modelling the `ValueError` `float` raises — when it has
two or more. -/
def pyFloatOfRun (s : List Char) : Option ℚ :=
  match splitDots s with
  | [ip] => some (digitsToNat ip : ℚ)
  | [ip, fp] => some ((digitsToNat ip : ℚ) + (digitsToNat fp : ℚ) / ((10 : ℚ) ^ fp.length))
  | _ => none

/-- `Lexer.number`'s scanning loop: consume a maximal run of characters
that are digits **or dots** (this is exactly the source's loop condition),
returning the run, the remaining input and the final column.  The run
never contains a newline, so the line is unchanged. -/
def takeNumRun : List Char → List Char → Nat → (List Char × List Char × Nat)
  | [], acc, column => (acc.reverse, [], column)
  | c :: cs, acc, column =>
    if pyIsDigit c || c = '.' then takeNumRun cs (c :: acc) (column + 1)
    else (acc.reverse, c :: cs, column)

/-- `Lexer.number`: scan the digits-and-dots run; if it contains a `.`,
convert with `float(result)` (which raises `ValueError` on a second dot,
modelled as `Err.valueError`), otherwise with `int(result)`. -/
def lexNumber (st : LexState) : Except Err (Token × LexState) :=
  let r := takeNumRun st.rest [] st.column
  let run := r.1
  let rest := r.2.1
  let column := r.2.2
  if run.contains '.' then
    match pyFloatOfRun run with
    | some q =>
        .ok (⟨.NUMBER, some (.num (.float q)), st.line, st.column⟩,
             ⟨rest, st.line, column⟩)
    | none =>
        .error (.valueError
          ("could not convert string to float: '" ++ String.mk run ++ "'"))
  else
    .ok (⟨.NUMBER, some (.num (.int (digitsToNat run))), st.line, st.column⟩,
         ⟨rest, st.line, column⟩)

/-- `Lexer.identifier`'s scanning loop: maximal run of alphanumerics and
underscores. -/
def takeIdentRun : List Char → List Char → Nat → (List Char × List Char × Nat)
  | [], acc, column => (acc.reverse, [], column)
  | c :: cs, acc, column =>
    if pyIsAlnum c || c = '_' then takeIdentRun cs (c :: acc) (column + 1)
    else (acc.reverse, c :: cs, column)

/-- `Lexer.identifier`: scan the run, then map exact keyword matches to
LET/PRINT and anything else to ID; the token carries the matched text. -/
def lexIdentifier (st : LexState) : Token × LexState :=
  let r := takeIdentRun st.rest [] st.column
  let run := String.mk r.1
  let tokType : TokenType :=
    if run = "let" then .LET
    else if run = "print" then .PRINT
    else .ID
  (⟨tokType, some (.str run), st.line, st.column⟩, ⟨r.2.1, st.line, r.2.2⟩)

/-- Build a single-character operator/delimiter token and advance one
column (none of these characters is a newline). -/
def lexOp (st : LexState) (tt : TokenType) (s : String) (cs : List Char) :
    Token × LexState :=
  (⟨tt, some (.str s), st.line, st.column⟩, ⟨cs, st.line, st.column + 1⟩)

/-- The single-character operator/delimiter arm of `get_next_token`:
the eight direct mappings, and the invalid-character lexer error for
anything else. -/
def lexOperator (c : Char) (cs : List Char) (st : LexState) :
    Except Err (Token × LexState) :=
  if c = '+' then .ok (lexOp st .PLUS "+" cs)
  else if c = '-' then .ok (lexOp st .MINUS "-" cs)
  else if c = '*' then .ok (lexOp st .MUL "*" cs)
  else if c = '/' then .ok (lexOp st .DIV "/" cs)
  else if c = '=' then .ok (lexOp st .ASSIGN "=" cs)
  else if c = '(' then .ok (lexOp st .LPAREN "(" cs)
  else if c = ')' then .ok (lexOp st .RPAREN ")" cs)
  else if c = ';' then .ok (lexOp st .SEMI ";" cs)
  else
    .error (.lexError st.line st.column
      ("Invalid character '" ++ String.mk [c] ++ "'"))

/-- `Lexer.get_next_token`: skip whitespace and `//` comments, then
dispatch on the current character; at end of input produce EOF.  The
skip-and-retry `while` loop is the fuel-consuming recursion; each retry
has strictly consumed input, and the wrapper `getNextToken` supplies
provably sufficient fuel. -/
def getNextTokenF : Nat → LexState → Except Err (Token × LexState)
  | 0, _ => .error .fuel
  | fuel + 1, st =>
    match st.rest with
    | [] => .ok (⟨.EOF, none, st.line, st.column⟩, st)
    | c :: cs =>
      if pyIsSpace c then
        getNextTokenF fuel (skipWsAux (c :: cs) st.line st.column)
      else if c = '/' && cs.head? = some '/' then
        getNextTokenF fuel (skipCommentAux (c :: cs) st.line st.column)
      else if pyIsDigit c then
        lexNumber st
      else if pyIsAlpha c || c = '_' then
        .ok (lexIdentifier st)
      else
        lexOperator c cs st

/-- `Lexer.get_next_token` with sufficient fuel. -/
def getNextToken (st : LexState) : Except Err (Token × LexState) :=
  getNextTokenF (st.rest.length + 1) st

/-- `Lexer.__init__`: cursor at the start of the text, line 1, column 1. -/
def initLexState (text : String) : LexState := ⟨text.toList, 1, 1⟩

/-- `Lexer.tokenize`'s collection loop: gather tokens until EOF, then
append the EOF token. -/
def tokenizeF : Nat → LexState → Except Err (List Token)
  | 0, _ => .error .fuel
  | fuel + 1, st =>
    match getNextToken st with
    | .error e => .error e
    | .ok (t, st') =>
      if t.type = .EOF then .ok [t]
      else
        match tokenizeF fuel st' with
        | .error e => .error e
        | .ok ts => .ok (t :: ts)

/-- `Lexer.tokenize` on a source text (each non-EOF token consumes at
least one character, so `length + 1` fuel suffices; proved below). -/
def tokenize (text : String) : Except Err (List Token) :=
  tokenizeF (text.length + 1) (initLexState text)

/-! ## AST (`ast_nodes.py`)

`ProgramNode` holds the top-level list of statements; since the grammar
never nests a program inside an expression or statement, it is modelled
as the `List ASTNode` the parser's `program` production returns, keeping
`ASTNode` a plain (non-nested) inductive. -/

/-- The expression/statement node variants of `ast_nodes.py`:
`NumberNode`, `VarNode`, `BinOpNode`, `AssignNode`, `PrintNode`. -/
inductive ASTNode where
  | number (value : Value)
  | var (name : String)
  | binop (left : ASTNode) (op : String) (right : ASTNode)
  | assign (var : String) (expr : ASTNode)
  | print (expr : ASTNode)
deriving DecidableEq, Repr

/-! ## Parser (`parser.py`) -/

/-- Parser state: the lexer it draws from and the one-token lookahead
`current_token`. -/
structure ParserState where
  lexer : LexState
  current_token : Token
deriving DecidableEq, Repr

/-- `Parser.__init__`: prime `current_token` with the first token. -/
def mkParser (text : String) : Except Err ParserState :=
  match getNextToken (initLexState text) with
  | .error e => .error e
  | .ok (t, st) => .ok ⟨st, t⟩

/-- `Parser.error`: a syntax error at the current token's position. -/
def parserErr (ps : ParserState) (msg : String) : Err :=
  .parseError ps.current_token.line ps.current_token.column msg

/-- `Parser.eat`: consume the current token if it has the expected type,
else fail with the expected-vs-found message. -/
def eat (tt : TokenType) (ps : ParserState) : Except Err ParserState :=
  if ps.current_token.type = tt then
    match getNextToken ps.lexer with
    | .error e => .error e
    | .ok (t, st) => .ok ⟨st, t⟩
  else
    .error (parserErr ps
      ("Expected " ++ tt.render ++ ", got " ++ ps.current_token.type.render))

/-- The string an operator token carries (`token.value` interpolated into
the AST node); operator tokens always carry their lexeme. -/
def tokenText (t : Token) : String :=
  match t.value with
  | some (.str s) => s
  | _ => ""

mutual

/-- `Parser.factor` : `NUMBER | ID | LPAREN expr RPAREN`. -/
def factorF : Nat → ParserState → Except Err (ASTNode × ParserState)
  | 0, _ => .error .fuel
  | fuel + 1, ps =>
    let token := ps.current_token
    match token.type with
    | .NUMBER =>
      match eat .NUMBER ps with
      | .error e => .error e
      | .ok ps' =>
        match token.value with
        | some (.num v) => .ok (.number v, ps')
        | _ => .error .fuel
    | .ID =>
      match eat .ID ps with
      | .error e => .error e
      | .ok ps' => .ok (.var (tokenText token), ps')
    | .LPAREN =>
      match eat .LPAREN ps with
      | .error e => .error e
      | .ok ps' =>
        match exprF fuel ps' with
        | .error e => .error e
        | .ok (node, ps'') =>
          match eat .RPAREN ps'' with
          | .error e => .error e
          | .ok ps''' => .ok (node, ps''')
    | _ => .error (parserErr ps ("Unexpected token " ++ token.type.render))

/-- The `while` loop of `Parser.term`, folding `(MUL | DIV) factor`
left-associatively onto `node`. -/
def termLoopF : Nat → ASTNode → ParserState → Except Err (ASTNode × ParserState)
  | 0, _, _ => .error .fuel
  | fuel + 1, node, ps =>
    if ps.current_token.type = .MUL ∨ ps.current_token.type = .DIV then
      let token := ps.current_token
      match eat ps.current_token.type ps with
      | .error e => .error e
      | .ok ps' =>
        match factorF fuel ps' with
        | .error e => .error e
        | .ok (rhs, ps'') => termLoopF fuel (.binop node (tokenText token) rhs) ps''
    else .ok (node, ps)

/-- `Parser.term` : `factor ((MUL | DIV) factor)*`. -/
def termF : Nat → ParserState → Except Err (ASTNode × ParserState)
  | 0, _ => .error .fuel
  | fuel + 1, ps =>
    match factorF fuel ps with
    | .error e => .error e
    | .ok (node, ps') => termLoopF fuel node ps'

/-- The `while` loop of `Parser.expr`, folding `(PLUS | MINUS) term`
left-associatively onto `node`. -/
def exprLoopF : Nat → ASTNode → ParserState → Except Err (ASTNode × ParserState)
  | 0, _, _ => .error .fuel
  | fuel + 1, node, ps =>
    if ps.current_token.type = .PLUS ∨ ps.current_token.type = .MINUS then
      let token := ps.current_token
      match eat ps.current_token.type ps with
      | .error e => .error e
      | .ok ps' =>
        match termF fuel ps' with
        | .error e => .error e
        | .ok (rhs, ps'') => exprLoopF fuel (.binop node (tokenText token) rhs) ps''
    else .ok (node, ps)

/-- `Parser.expr` : `term ((PLUS | MINUS) term)*`. -/
def exprF : Nat → ParserState → Except Err (ASTNode × ParserState)
  | 0, _ => .error .fuel
  | fuel + 1, ps =>
    match termF fuel ps with
    | .error e => .error e
    | .ok (node, ps') => exprLoopF fuel node ps'

end

/-- `Parser.assignment` : `LET ID ASSIGN expr SEMI`. -/
def assignmentF (fuel : Nat) (ps : ParserState) :
    Except Err (ASTNode × ParserState) :=
  match eat .LET ps with
  | .error e => .error e
  | .ok ps1 =>
    let varToken := ps1.current_token
    match eat .ID ps1 with
    | .error e => .error e
    | .ok ps2 =>
      match eat .ASSIGN ps2 with
      | .error e => .error e
      | .ok ps3 =>
        match exprF fuel ps3 with
        | .error e => .error e
        | .ok (e, ps4) =>
          match eat .SEMI ps4 with
          | .error er => .error er
          | .ok ps5 => .ok (.assign (tokenText varToken) e, ps5)

/-- `Parser.print_stmt` : `PRINT LPAREN expr RPAREN SEMI`. -/
def printStmtF (fuel : Nat) (ps : ParserState) :
    Except Err (ASTNode × ParserState) :=
  match eat .PRINT ps with
  | .error e => .error e
  | .ok ps1 =>
    match eat .LPAREN ps1 with
    | .error e => .error e
    | .ok ps2 =>
      match exprF fuel ps2 with
      | .error e => .error e
      | .ok (e, ps3) =>
        match eat .RPAREN ps3 with
        | .error er => .error er
        | .ok ps4 =>
          match eat .SEMI ps4 with
          | .error er => .error er
          | .ok ps5 => .ok (.print e, ps5)

/-- `Parser.statement` : `assignment | print_stmt`. -/
def statementF (fuel : Nat) (ps : ParserState) :
    Except Err (ASTNode × ParserState) :=
  if ps.current_token.type = .LET then assignmentF fuel ps
  else if ps.current_token.type = .PRINT then printStmtF fuel ps
  else .error (parserErr ps ("Unexpected token " ++ ps.current_token.type.render))

/-- The `while` loop of `Parser.program`: collect statements until the
lookahead is EOF. -/
def programF : Nat → ParserState → Except Err (List ASTNode × ParserState)
  | 0, _ => .error .fuel
  | fuel + 1, ps =>
    if ps.current_token.type = .EOF then .ok ([], ps)
    else
      match statementF fuel ps with
      | .error e => .error e
      | .ok (s, ps') =>
        match programF fuel ps' with
        | .error e => .error e
        | .ok (rest, ps'') => .ok (s :: rest, ps'')

/-- `Parser.parse` on a source text: the statement list of the resulting
`ProgramNode`.  Fuel `length + 2` dominates every production's recursion
depth (each consumes at least one token, each token at least one
character). -/
def parse (text : String) : Except Err (List ASTNode) :=
  match mkParser text with
  | .error e => .error e
  | .ok ps =>
    match programF (text.length + 2) ps with
    | .error e => .error e
    | .ok (stmts, _) => .ok stmts

/-! ## Interpreter (`interpreter.py`) -/

/-- Look up a variable in the symbol table (Python dict read). -/
def lookupVar : List (String × Value) → String → Option Value
  | [], _ => none
  | (k, v) :: rest, x => if k = x then some v else lookupVar rest x

/-- Python dict assignment `table[x] = v`: replace in place if the key is
present, else append (insertion order preserved). -/
def setVar : List (String × Value) → String → Value → List (String × Value)
  | [], x, v => [(x, v)]
  | (k, w) :: rest, x, v =>
    if k = x then (k, v) :: rest else (k, w) :: setVar rest x v

/-- Python `str` of a value.  Integers render in decimal.  Floats whose
reduced denominator divides a power of ten (every value arising from the
language's decimal literals and `+`,`-`,`*` on them, and every exact
quotient) render as Python's shortest exact decimal with at least one
fractional digit; other rationals (inexact quotients, where the host
would round to binary and print 17 significant digits) fall back to a
`num/den` form never exercised by the claims. -/
def floatRepr (q : ℚ) : String :=
  match (List.range 64).find? (fun k => ((10 : ℤ) ^ k) % (q.den : ℤ) == 0) with
  | none => toString q.num ++ "/" ++ toString q.den
  | some k =>
    let scaled : ℤ := q.num * ((10 : ℤ) ^ k / (q.den : ℤ))
    if k = 0 then toString scaled ++ ".0"
    else
      let a := scaled.natAbs
      let fstr := toString (a % 10 ^ k)
      (if q.num < 0 then "-" else "") ++ toString (a / 10 ^ k) ++ "." ++
        String.mk (List.replicate (k - fstr.length) '0') ++ fstr

/-- Python `str(value)` for a numeric value. -/
def pyStr : Value → String
  | .int n => toString n
  | .float q => floatRepr q

/-- Python `str` applied to a visit result (`None` prints as `"None"`;
unreachable from parser-produced ASTs). -/
def pyStrOpt : Option Value → String
  | some v => pyStr v
  | none => "None"

/-- The operator-application chain of `Interpreter.visit_BinOpNode`
(lines 94–106), applied to the two already-evaluated operand values. -/
def binOpApply (op : String) (l r : Value) : Except Err Value :=
  if op = "+" then
    .ok (match l, r with
         | .int a, .int b => .int (a + b)
         | _, _ => .float (l.toRat + r.toRat))
  else if op = "-" then
    .ok (match l, r with
         | .int a, .int b => .int (a - b)
         | _, _ => .float (l.toRat - r.toRat))
  else if op = "*" then
    .ok (match l, r with
         | .int a, .int b => .int (a * b)
         | _, _ => .float (l.toRat * r.toRat))
  else if op = "/" then
    if pyEqZero r then .error (.runtimeError "Division by zero")
    else .ok (.float (l.toRat / r.toRat))
  else .error (.runtimeError ("Unknown operator: " ++ op))

/-- Interpreter state: the symbol table, plus the text the host `print`
built-in has written to standard output (one entry per `print` call).
The source `Interpreter` object holds only `symbol_table`; `console` is
the process-level output channel its `visit_PrintNode` writes to. -/
structure InterpSt where
  symbol_table : List (String × Value)
  console : List String
deriving DecidableEq, Repr

/-- `Interpreter.visit`: evaluate a node, returning the state after the
visit and either the visit method's return value (`none` models Python's
`None`, returned by the statement visitors) or the propagated exception.
On an exception the returned state keeps all effects accumulated up to
the raise, as the mutated Python object would. -/
def visit : ASTNode → InterpSt → InterpSt × Except Err (Option Value)
  | .number v, st => (st, .ok (some v))
  | .var name, st =>
    match lookupVar st.symbol_table name with
    | some v => (st, .ok (some v))
    | none =>
      (st, .error (.runtimeError ("Variable '" ++ name ++ "' is not defined")))
  | .binop l op r, st =>
    match visit l st with
    | (st1, .error e) => (st1, .error e)
    | (st1, .ok lv) =>
      match visit r st1 with
      | (st2, .error e) => (st2, .error e)
      | (st2, .ok rv) =>
        match lv, rv with
        | some lval, some rval =>
          (st2, (binOpApply op lval rval).map some)
        | _, _ =>
          -- a parser-produced operand always yields a value; a statement
          -- operand would make the host raise TypeError on `None ⊗ v`
          (st2, .error (.typeError "unsupported operand type(s)"))
  | .assign x e, st =>
    match visit e st with
    | (st1, .error err) => (st1, .error err)
    | (st1, .ok v) =>
      match v with
      | some val =>
        ({ st1 with symbol_table := setVar st1.symbol_table x val }, .ok none)
      | none =>
        -- unreachable from parser output (the right-hand side is an expr)
        (st1, .error (.typeError "assignment of None"))
  | .print e, st =>
    match visit e st with
    | (st1, .error err) => (st1, .error err)
    | (st1, .ok v) =>
      ({ st1 with console := st1.console ++ [pyStrOpt v] }, .ok none)

/-- `Interpreter.visit_ProgramNode`: run the statements in order; the
first exception halts execution and propagates, keeping prior effects.
Returns `none` (Python `None`) on success, exactly as the source's
`interpret` does. -/
def visitProgram : List ASTNode → InterpSt → InterpSt × Except Err (Option Value)
  | [], st => (st, .ok none)
  | s :: rest, st =>
    match visit s st with
    | (st1, .error e) => (st1, .error e)
    | (st1, .ok _) => visitProgram rest st1

/-- The full pipeline on a source text: lex and parse (outer `Except`),
then interpret from an empty store, returning the final interpreter state
together with `interpret`'s result. -/
def execText (text : String) :
    Except Err (InterpSt × Except Err (Option Value)) :=
  match parse text with
  | .error e => .error e
  | .ok stmts => .ok (visitProgram stmts ⟨[], []⟩)

/-! ## The output-capturing subclass (`app.py`, `WebInterpreter`) -/

/-- A `WebInterpreter` timeline entry: a print or an assignment, each
with a snapshot of the symbol table at that point. -/
inductive TimelineEntry where
  | print (value : String) (symbol_table : List (String × Value))
  | assignment (vname : String) (value : Value)
      (symbol_table : List (String × Value))
deriving DecidableEq, Repr

/-- `WebInterpreter` state: the inherited symbol table plus the captured
`output_lines` and the `timeline`. -/
structure WebSt where
  symbol_table : List (String × Value)
  output_lines : List String
  timeline : List TimelineEntry
deriving DecidableEq, Repr

/-- `WebInterpreter`'s visit: identical to the base interpreter except
that `visit_PrintNode` appends `str(value)` to `output_lines` (and the
timeline) and returns the value, and `visit_AssignNode` additionally
records a timeline entry.  Dynamic dispatch makes the overridden methods
apply at every recursion depth. -/
def webVisit : ASTNode → WebSt → WebSt × Except Err (Option Value)
  | .number v, st => (st, .ok (some v))
  | .var name, st =>
    match lookupVar st.symbol_table name with
    | some v => (st, .ok (some v))
    | none =>
      (st, .error (.runtimeError ("Variable '" ++ name ++ "' is not defined")))
  | .binop l op r, st =>
    match webVisit l st with
    | (st1, .error e) => (st1, .error e)
    | (st1, .ok lv) =>
      match webVisit r st1 with
      | (st2, .error e) => (st2, .error e)
      | (st2, .ok rv) =>
        match lv, rv with
        | some lval, some rval =>
          (st2, (binOpApply op lval rval).map some)
        | _, _ =>
          (st2, .error (.typeError "unsupported operand type(s)"))
  | .assign x e, st =>
    match webVisit e st with
    | (st1, .error err) => (st1, .error err)
    | (st1, .ok v) =>
      match v with
      | some val =>
        let table := setVar st1.symbol_table x val
        ({ st1 with
            symbol_table := table,
            timeline := st1.timeline ++ [.assignment x val table] },
         .ok none)
      | none => (st1, .error (.typeError "assignment of None"))
  | .print e, st =>
    match webVisit e st with
    | (st1, .error err) => (st1, .error err)
    | (st1, .ok v) =>
      match v with
      | some val =>
        ({ st1 with
            output_lines := st1.output_lines ++ [pyStr val],
            timeline := st1.timeline ++ [.print (pyStr val) st1.symbol_table] },
         .ok (some val))
      | none =>
        ({ st1 with
            output_lines := st1.output_lines ++ ["None"],
            timeline := st1.timeline ++ [.print "None" st1.symbol_table] },
         .ok none)

/-- The inherited `visit_ProgramNode` under `WebInterpreter`'s dispatch. -/
def webVisitProgram : List ASTNode → WebSt → WebSt × Except Err (Option Value)
  | [], st => (st, .ok none)
  | s :: rest, st =>
    match webVisit s st with
    | (st1, .error e) => (st1, .error e)
    | (st1, .ok _) => webVisitProgram rest st1

/-! ## Well-formedness of parser-produced nodes -/

/-- Expression nodes: what `factor`/`term`/`expr` can produce. -/
def isExprB : ASTNode → Bool
  | .number _ => true
  | .var _ => true
  | .binop l _ r => isExprB l && isExprB r
  | _ => false

/-- Statement nodes: what `statement` can produce. -/
def isStmtB : ASTNode → Bool
  | .assign _ e => isExprB e
  | .print e => isExprB e
  | _ => false

/-- The variable names assigned anywhere inside a node. -/
def assignedNames : ASTNode → List String
  | .number _ => []
  | .var _ => []
  | .binop l _ r => assignedNames l ++ assignedNames r
  | .assign x e => x :: assignedNames e
  | .print e => assignedNames e

/-! ## Theorems -/

instance {e a : Type} [DecidableEq e] [DecidableEq a] : DecidableEq (Except e a)
  | .ok x, .ok y =>
    if h : x = y then isTrue (by rw [h]) else isFalse (by simp [h])
  | .ok _, .error _ => isFalse (by simp)
  | .error _, .ok _ => isFalse (by simp)
  | .error x, .error y =>
    if h : x = y then isTrue (by rw [h]) else isFalse (by simp [h])

/-- Claim C1: the parser encodes precedence and associativity: `*`/`/`
bind tighter than `+`/`-`, binary operators associate to the left, and
parentheses override precedence.  Parsing `2 + 3 * 4` yields
`Add(2, Mul(3, 4))`, `(2 + 3) * 4` yields `Mul(Add(2, 3), 4)`,
`10 - 5 - 2` yields `Sub(Sub(10, 5), 2)`, and evaluation gives
`x = 14`, `x = 20` and `x = 3` respectively. -/
theorem parser_precedence_and_associativity :
    parse "let x = 2 + 3 * 4;" =
      .ok [.assign "x" (.binop (.number (.int 2)) "+"
            (.binop (.number (.int 3)) "*" (.number (.int 4))))] ∧
    parse "let x = (2 + 3) * 4;" =
      .ok [.assign "x" (.binop (.binop (.number (.int 2)) "+"
            (.number (.int 3))) "*" (.number (.int 4)))] ∧
    parse "let x = 10 - 5 - 2;" =
      .ok [.assign "x" (.binop (.binop (.number (.int 10)) "-"
            (.number (.int 5))) "-" (.number (.int 2)))] ∧
    execText "let x = 2 + 3 * 4;" =
      .ok (⟨[("x", .int 14)], []⟩, .ok none) ∧
    execText "let x = (2 + 3) * 4;" =
      .ok (⟨[("x", .int 20)], []⟩, .ok none) ∧
    execText "let x = 10 - 5 - 2;" =
      .ok (⟨[("x", .int 3)], []⟩, .ok none) ∧
    parse "let x = 2 - 6 / 3;" =
      .ok [.assign "x" (.binop (.number (.int 2)) "-"
            (.binop (.number (.int 6)) "/" (.number (.int 3))))] ∧
    execText "let x = 2 - 6 / 3;" =
      .ok (⟨[("x", .float 0)], []⟩, .ok none) ∧
    parse "let x = 8 / 4 / 2;" =
      .ok [.assign "x" (.binop (.binop (.number (.int 8)) "/"
            (.number (.int 4))) "/" (.number (.int 2)))] ∧
    execText "let x = 8 / 4 / 2;" =
      .ok (⟨[("x", .float 1)], []⟩, .ok none) := by
  refine ⟨?_, ?_, ?_, ?_, ?_, ?_, ?_, ?_, ?_, ?_⟩
  all_goals decide!

/-- Claim C10: tokenizing empty text, whitespace-only text, or text with
only whitespace and `//` comments yields exactly the single END_OF_INPUT
token (at line 1, column 1 for empty input), and parsing such text
succeeds with an empty statement list. -/
theorem empty_input_tokenizes_to_eof_and_parses_to_empty_program :
    tokenize "" = .ok [⟨.EOF, none, 1, 1⟩] ∧
    tokenize "  \t " = .ok [⟨.EOF, none, 1, 5⟩] ∧
    tokenize " \n// only a comment\n\t" = .ok [⟨.EOF, none, 3, 2⟩] ∧
    tokenize "// no newline at end" = .ok [⟨.EOF, none, 1, 21⟩] ∧
    parse "" = .ok [] ∧
    parse "  \t " = .ok [] ∧
    parse " \n// only a comment\n\t" = .ok [] ∧
    parse "// no newline at end" = .ok [] := by
  decide!

/-- Claim C7 (the code contradicts it): on input `1.2.3` the lexer's
number scanner does **not** stop before the second `.`; its loop
condition accepts every digit or dot, so it consumes the full run
`"1.2.3"` and then `float("1.2.3")` raises an uncaught `ValueError` —
while a single-dot run such as `1.2` is scanned as claimed. -/
theorem number_scan_consumes_second_dot_and_raises :
    getNextToken (initLexState "1.2.3") =
      .error (.valueError "could not convert string to float: '1.2.3'") ∧
    tokenize "1.2.3" =
      .error (.valueError "could not convert string to float: '1.2.3'") ∧
    takeNumRun (initLexState "1.2.3").rest [] 1 = ("1.2.3".toList, [], 6) ∧
    tokenize "1.2" =
      .ok [⟨.NUMBER, some (.num (.float (6 / 5))), 1, 1⟩, ⟨.EOF, none, 1, 4⟩] ∧
    tokenize "7" =
      .ok [⟨.NUMBER, some (.num (.int 7)), 1, 1⟩, ⟨.EOF, none, 1, 2⟩] := by
  decide!

/-- Claim C2: for a `/` BinaryOp whose operands evaluated to `v1` and
`v2`, the interpreter raises `Runtime error: Division by zero` exactly
when `v2 == 0`, the check preceding the division (the error branch is
taken before any quotient is formed), and otherwise performs real-valued
division; `let x = 10 / 0;` fails with that error. -/
theorem division_by_zero_checked_before_dividing
    (e1 e2 : ASTNode) (st st1 st2 : InterpSt) (v1 v2 : Value)
    (h1 : visit e1 st = (st1, .ok (some v1)))
    (h2 : visit e2 st1 = (st2, .ok (some v2))) :
    (pyEqZero v2 = true →
      visit (.binop e1 "/" e2) st =
        (st2, .error (.runtimeError "Division by zero"))) ∧
    (pyEqZero v2 = false →
      visit (.binop e1 "/" e2) st =
        (st2, .ok (some (.float (v1.toRat / v2.toRat))))) ∧
    execText "let x = 10 / 0;" =
      .ok (⟨[], []⟩, .error (.runtimeError "Division by zero")) := by
  refine ⟨?_, ?_, by decide!⟩ <;>
    intro hz <;>
    simp only [visit, h1, h2, binOpApply, hz, reduceIte, Except.map] <;>
    simp [binOpApply, hz]

/-- Witness for C2 at `10 / 0` and `10 / 4` from the empty state. -/
theorem division_by_zero_checked_before_dividing_witness :
    ((pyEqZero (Value.int 0) = true →
        visit (.binop (.number (.int 10)) "/" (.number (.int 0))) ⟨[], []⟩ =
          (⟨[], []⟩, .error (.runtimeError "Division by zero"))) ∧
     (pyEqZero (Value.int 0) = false →
        visit (.binop (.number (.int 10)) "/" (.number (.int 0))) ⟨[], []⟩ =
          (⟨[], []⟩, .ok (some (.float ((Value.int 10).toRat / (Value.int 0).toRat))))) ∧
     execText "let x = 10 / 0;" =
       .ok (⟨[], []⟩, .error (.runtimeError "Division by zero"))) ∧
    ((pyEqZero (Value.int 4) = true →
        visit (.binop (.number (.int 10)) "/" (.number (.int 4))) ⟨[], []⟩ =
          (⟨[], []⟩, .error (.runtimeError "Division by zero"))) ∧
     (pyEqZero (Value.int 4) = false →
        visit (.binop (.number (.int 10)) "/" (.number (.int 4))) ⟨[], []⟩ =
          (⟨[], []⟩, .ok (some (.float ((Value.int 10).toRat / (Value.int 4).toRat))))) ∧
     execText "let x = 10 / 0;" =
       .ok (⟨[], []⟩, .error (.runtimeError "Division by zero"))) :=
  ⟨division_by_zero_checked_before_dividing
      (.number (.int 10)) (.number (.int 0)) ⟨[], []⟩ ⟨[], []⟩ ⟨[], []⟩
      (.int 10) (.int 0) rfl rfl,
   division_by_zero_checked_before_dividing
      (.number (.int 10)) (.number (.int 4)) ⟨[], []⟩ ⟨[], []⟩ ⟨[], []⟩
      (.int 10) (.int 4) rfl rfl⟩

/-- Claim C5: evaluating a Variable node returns the store's value for
its name, and fails with `Runtime error: Variable '<name>' is not
defined` exactly when the name is absent; `let x = y + 5;` from an empty
store fails naming `y`. -/
theorem variable_lookup_and_undefined_error (name : String) (st : InterpSt) :
    (∀ v, lookupVar st.symbol_table name = some v →
        visit (.var name) st = (st, .ok (some v))) ∧
    (lookupVar st.symbol_table name = none →
        visit (.var name) st =
          (st, .error (.runtimeError
            ("Variable '" ++ name ++ "' is not defined")))) ∧
    execText "let x = y + 5;" =
      .ok (⟨[], []⟩, .error (.runtimeError "Variable 'y' is not defined")) := by
  refine ⟨?_, ?_, by decide!⟩
  · intro v hv; simp [visit, hv]
  · intro hv; simp [visit, hv]

/-- Witness for C5: name `y`, store with binding `y ↦ 7`, and the empty
store. -/
theorem variable_lookup_and_undefined_error_witness :
    visit (.var "y") ⟨[("y", .int 7)], []⟩ =
      (⟨[("y", .int 7)], []⟩, .ok (some (.int 7))) ∧
    visit (.var "y") ⟨[], []⟩ =
      (⟨[], []⟩, .error (.runtimeError "Variable 'y' is not defined")) ∧
    execText "let x = y + 5;" =
      .ok (⟨[], []⟩, .error (.runtimeError "Variable 'y' is not defined")) :=
  ⟨(variable_lookup_and_undefined_error "y" ⟨[("y", .int 7)], []⟩).1
      (.int 7) rfl,
   (variable_lookup_and_undefined_error "y" ⟨[], []⟩).2.1 rfl,
   (variable_lookup_and_undefined_error "y" ⟨[], []⟩).2.2⟩

/-- Claim C6: `+`, `-`, `*` preserve integer-ness (int⊗int→int, a float
operand makes the result float), while `/` always yields a float even on
an exact integer quotient, with `10 / 5` value-equal to the integer `2`. -/
theorem operators_preserve_intness_division_always_float :
    (∀ a b : ℤ,
      binOpApply "+" (.int a) (.int b) = .ok (.int (a + b)) ∧
      binOpApply "-" (.int a) (.int b) = .ok (.int (a - b)) ∧
      binOpApply "*" (.int a) (.int b) = .ok (.int (a * b))) ∧
    (∀ (op : String) (v w r : Value),
      (op = "+" ∨ op = "-" ∨ op = "*") →
      ((∃ q, v = .float q) ∨ ∃ q, w = .float q) →
      binOpApply op v w = .ok r → ∃ q, r = .float q) ∧
    (∀ v w r, binOpApply "/" v w = .ok r → ∃ q, r = .float q) ∧
    binOpApply "/" (.int 10) (.int 5) = .ok (.float 2) ∧
    pyEq (.float 2) (.int 2) = true := by
  refine ⟨fun a b => ⟨rfl, rfl, rfl⟩, ?_, ?_, by decide!, by decide!⟩
  · rintro op v w r hop hf h
    rcases hop with rfl | rfl | rfl <;> cases v <;> cases w <;>
      simp only [binOpApply, String.reduceEq, reduceIte, Except.ok.injEq] at h <;>
      first
        | exact ⟨_, h.symm⟩
        | exact ⟨_, h⟩
        | (rcases hf with ⟨q, hq⟩ | ⟨q, hq⟩ <;> exact absurd hq (by simp))
  · intro v w r h
    simp only [binOpApply, reduceIte] at h
    by_cases hz : pyEqZero w = true <;> simp [hz] at h <;> exact ⟨_, h.symm⟩

/-- Helper: looking up after a dict assignment sees the new binding at
the assigned key and the old table elsewhere. -/
lemma lookupVar_setVar (tbl : List (String × Value)) (x k : String) (v : Value) :
    lookupVar (setVar tbl x v) k =
      if k = x then some v else lookupVar tbl k := by
  induction tbl with
  | nil =>
    rcases eq_or_ne k x with h | h
    · subst h; simp [setVar, lookupVar]
    · simp [setVar, lookupVar, h, h.symm]
  | cons p rest ih =>
    rcases p with ⟨a, w⟩
    by_cases ha : a = x
    · subst ha
      rcases eq_or_ne k a with hk | hk
      · subst hk; simp [setVar, lookupVar]
      · simp [setVar, lookupVar, hk, hk.symm]
    · rcases eq_or_ne a k with hk | hk
      · subst hk
        have hkx : ¬(a = x) := ha
        simp [setVar, lookupVar, ha, hkx]
      · simp [setVar, lookupVar, ha, hk, ih]

/-- Helper: evaluating an expression-formed node (Number, Variable, or
BinaryOp over those) leaves the interpreter state — symbol table and
console alike — untouched. -/
lemma visit_expr_state :
    ∀ e : ASTNode, isExprB e = true → ∀ st : InterpSt, (visit e st).1 = st := by
  intro e
  induction e with
  | number v => intro _ _; rfl
  | var n =>
    intro _ st
    cases h : lookupVar st.symbol_table n <;> simp [visit, h]
  | binop l op r ihl ihr =>
    intro he st
    simp only [isExprB, Bool.and_eq_true] at he
    rcases h1 : visit l st with ⟨st1, r1⟩
    have e1 : st1 = st := by have := ihl he.1 st; rw [h1] at this; exact this
    rw [e1] at h1
    cases r1 with
    | error er => simp [visit, h1]
    | ok lv =>
      rcases h2 : visit r st with ⟨st2, r2⟩
      have e2 : st2 = st := by have := ihr he.2 st; rw [h2] at this; exact this
      rw [e2] at h2
      cases r2 with
      | error er => simp [visit, h1, h2]
      | ok rv => cases lv <;> cases rv <;> simp [visit, h1, h2]
  | assign x e ih => intro he; simp [isExprB] at he
  | print e ih => intro he; simp [isExprB] at he

/-- Helper: any key present in the store after a visit was present
before or is assigned somewhere inside the visited node. -/
lemma visit_store_keys :
    ∀ (n : ASTNode) (st : InterpSt) (k : String),
      lookupVar ((visit n st).1.symbol_table) k ≠ none →
      lookupVar st.symbol_table k ≠ none ∨ k ∈ assignedNames n := by
  intro n
  induction n with
  | number v => intro st k h; exact Or.inl h
  | var name =>
    intro st k h
    left
    cases hl : lookupVar st.symbol_table name <;> simpa [visit, hl] using h
  | binop l op r ihl ihr =>
    intro st k h
    rcases h1 : visit l st with ⟨st1, r1⟩
    cases r1 with
    | error er =>
      simp only [visit, h1] at h
      rcases ihl st k (by rw [h1]; exact h) with h' | h'
      · exact Or.inl h'
      · exact Or.inr (by simp [assignedNames, h'])
    | ok lv =>
      rcases h2 : visit r st1 with ⟨st2, r2⟩
      have hsub : lookupVar st2.symbol_table k ≠ none →
          lookupVar st.symbol_table k ≠ none ∨ k ∈ assignedNames (.binop l op r) := by
        intro h2'
        rcases ihr st1 k (by rw [h2]; exact h2') with h' | h'
        · rcases ihl st k (by rw [h1]; exact h') with h'' | h''
          · exact Or.inl h''
          · exact Or.inr (by simp [assignedNames, h''])
        · exact Or.inr (by simp [assignedNames, h'])
      cases r2 with
      | error er =>
        simp only [visit, h1, h2] at h
        exact hsub h
      | ok rv =>
        cases lv <;> cases rv <;> simp only [visit, h1, h2] at h <;> exact hsub h
  | assign x e ih =>
    intro st k h
    rcases h1 : visit e st with ⟨st1, r1⟩
    have hsub : lookupVar st1.symbol_table k ≠ none →
        lookupVar st.symbol_table k ≠ none ∨ k ∈ assignedNames (.assign x e) := by
      intro h1'
      rcases ih st k (by rw [h1]; exact h1') with h' | h'
      · exact Or.inl h'
      · exact Or.inr (by simp [assignedNames, h'])
    cases r1 with
    | error er =>
      simp only [visit, h1] at h
      exact hsub h
    | ok v =>
      cases v with
      | none =>
        simp only [visit, h1] at h
        exact hsub h
      | some val =>
        simp only [visit, h1] at h
        by_cases hk : k = x
        · exact Or.inr (by simp [assignedNames, hk])
        · rw [lookupVar_setVar, if_neg hk] at h
          exact hsub h
  | print e ih =>
    intro st k h
    rcases h1 : visit e st with ⟨st1, r1⟩
    have hsub : lookupVar st1.symbol_table k ≠ none →
        lookupVar st.symbol_table k ≠ none ∨ k ∈ assignedNames (.print e) := by
      intro h1'
      rcases ih st k (by rw [h1]; exact h1') with h' | h'
      · exact Or.inl h'
      · exact Or.inr (by simpa [assignedNames] using h')
    cases r1 with
    | error er => simp only [visit, h1] at h; exact hsub h
    | ok v => simp only [visit, h1] at h; exact hsub h

/-- Claim C4: if the statements `pre` all succeed from `st` and the next
statement `s` fails with `e`, then running `pre ++ s :: post` runs `pre`
in order, halts at `s`, never evaluates `post` (the result does not
depend on it), and retains every effect accumulated up to the failure
(`st2` is exactly the state `s`'s partial evaluation left). -/
theorem program_halts_at_first_failing_statement
    (pre : List ASTNode) (s : ASTNode) (post : List ASTNode)
    (st st1 st2 : InterpSt) (e : Err)
    (hpre : visitProgram pre st = (st1, .ok none))
    (hs : visit s st1 = (st2, .error e)) :
    visitProgram (pre ++ s :: post) st = (st2, .error e) ∧
    visitProgram (pre ++ s :: post) st = visitProgram (pre ++ [s]) st := by
  have main : ∀ (pre' : List ASTNode) (post' st' st1'),
      visitProgram pre' st' = (st1', .ok none) →
      visit s st1' = (st2, .error e) →
      visitProgram (pre' ++ s :: post') st' = (st2, .error e) := by
    intro pre'
    induction pre' with
    | nil =>
      intro post' st' st1' hpre' hs'
      simp only [visitProgram] at hpre'
      cases hpre'
      simp [visitProgram, hs']
    | cons a as ih =>
      intro post' st' st1' hpre' hs'
      rcases h1 : visit a st' with ⟨sta, ra⟩
      cases ra with
      | error er =>
        simp only [visitProgram, h1] at hpre'
        cases hpre'
      | ok v =>
        simp only [visitProgram, h1] at hpre'
        simp only [List.cons_append, visitProgram, h1]
        exact ih post' sta st1' hpre' hs'
  exact ⟨main pre post st st1 hpre hs,
    by rw [main pre post st st1 hpre hs, main pre [] st st1 hpre hs]⟩

/-- Witness for C4: `let x = 1;` succeeds, `let y = z;` fails on the
undefined `z`, and the trailing `let w = 2;` is never run: the final
state keeps only `x`. -/
theorem program_halts_at_first_failing_statement_witness :
    visitProgram
        [ASTNode.assign "x" (.number (.int 1)),
         ASTNode.assign "y" (.var "z"),
         ASTNode.assign "w" (.number (.int 2))] ⟨[], []⟩ =
      (⟨[("x", .int 1)], []⟩,
       .error (.runtimeError "Variable 'z' is not defined")) ∧
    visitProgram
        [ASTNode.assign "x" (.number (.int 1)),
         ASTNode.assign "y" (.var "z"),
         ASTNode.assign "w" (.number (.int 2))] ⟨[], []⟩ =
      visitProgram
        [ASTNode.assign "x" (.number (.int 1)),
         ASTNode.assign "y" (.var "z")] ⟨[], []⟩ :=
  program_halts_at_first_failing_statement
    [ASTNode.assign "x" (.number (.int 1))]
    (ASTNode.assign "y" (.var "z"))
    [ASTNode.assign "w" (.number (.int 2))]
    ⟨[], []⟩ ⟨[("x", .int 1)], []⟩ ⟨[("x", .int 1)], []⟩
    (.runtimeError "Variable 'z' is not defined") rfl rfl

/-- Claim C9: Number, Variable, BinaryOp and Print nodes (over
parser-formed expressions) never change the variable store; an Assign
node rebinds exactly the assigned name to the evaluated value and leaves
every other binding as it was (and on a failing right-hand side leaves
the store untouched); and any key in the store after any visit was in
the store before or is assigned inside the visited node. -/
theorem store_mutated_only_by_assign (e : ASTNode) (x : String) (st : InterpSt) :
    (isExprB e = true → (visit e st).1 = st) ∧
    (isExprB e = true →
      (visit (.print e) st).1.symbol_table = st.symbol_table) ∧
    (isExprB e = true →
      (∀ v, (visit e st).2 = .ok (some v) →
        visit (.assign x e) st =
          ({ st with symbol_table := setVar st.symbol_table x v }, .ok none)) ∧
      (∀ err, (visit e st).2 = .error err →
        visit (.assign x e) st = (st, .error err))) ∧
    (∀ v, lookupVar (setVar st.symbol_table x v) x = some v) ∧
    (∀ v y, y ≠ x →
      lookupVar (setVar st.symbol_table x v) y = lookupVar st.symbol_table y) ∧
    (∀ (n : ASTNode) (k : String),
      lookupVar ((visit n st).1.symbol_table) k ≠ none →
      lookupVar st.symbol_table k ≠ none ∨ k ∈ assignedNames n) := by
  refine ⟨fun he => visit_expr_state e he st, ?_, ?_, ?_, ?_,
    fun n k => visit_store_keys n st k⟩
  · intro he
    rcases h1 : visit e st with ⟨st1, r1⟩
    have e1 : st1 = st := by
      have := visit_expr_state e he st; rw [h1] at this; exact this
    subst e1
    cases r1 with
    | error er => simp [visit, h1]
    | ok v => simp [visit, h1]
  · intro he
    constructor
    · intro v hv
      rcases h1 : visit e st with ⟨st1, r1⟩
      have e1 : st1 = st := by
        have := visit_expr_state e he st; rw [h1] at this; exact this
      subst e1
      rw [h1] at hv
      simp only at hv
      subst hv
      simp [visit, h1]
    · intro err herr
      rcases h1 : visit e st with ⟨st1, r1⟩
      have e1 : st1 = st := by
        have := visit_expr_state e he st; rw [h1] at this; exact this
      subst e1
      rw [h1] at herr
      simp only at herr
      subst herr
      simp [visit, h1]
  · intro v; rw [lookupVar_setVar, if_pos rfl]
  · intro v y hy; rw [lookupVar_setVar, if_neg hy]

/-- Witness for C9: expression `1 + a` over store `{a ↦ 2}`, assigned
name `b`, probe node `let b = 1;` at key `b`. -/
theorem store_mutated_only_by_assign_witness :
    (visit (.binop (.number (.int 1)) "+" (.var "a"))
        ⟨[("a", .int 2)], []⟩).1 = ⟨[("a", .int 2)], []⟩ ∧
    (visit (.print (.binop (.number (.int 1)) "+" (.var "a")))
        ⟨[("a", .int 2)], []⟩).1.symbol_table = [("a", .int 2)] ∧
    visit (.assign "b" (.binop (.number (.int 1)) "+" (.var "a")))
        ⟨[("a", .int 2)], []⟩ =
      (⟨[("a", .int 2), ("b", .int 3)], []⟩, .ok none) ∧
    lookupVar (setVar [("a", .int 2)] "b" (.int 3)) "b" = some (.int 3) ∧
    lookupVar (setVar [("a", .int 2)] "b" (.int 3)) "a" =
      lookupVar [("a", .int 2)] "a" ∧
    (lookupVar [("a", .int 2)] "b" ≠ none ∨
      "b" ∈ assignedNames (.assign "b" (.number (.int 1)))) := by
  have h := store_mutated_only_by_assign
    (.binop (.number (.int 1)) "+" (.var "a")) "b" ⟨[("a", .int 2)], []⟩
  refine ⟨h.1 rfl, h.2.1 rfl, ?_, h.2.2.2.1 (.int 3),
    h.2.2.2.2.1 (.int 3) "a" (by decide!), ?_⟩
  · have := (h.2.2.1 rfl).1 (.int 3) rfl
    simpa using this
  · exact (store_mutated_only_by_assign
      (.number (.int 1)) "b" ⟨[("a", .int 2)], []⟩).2.2.2.2.2
      (.assign "b" (.number (.int 1))) "b" (by decide!)

/-- Helper: on expression-formed nodes the `WebInterpreter` evaluates
exactly as the base interpreter over an equal symbol table, without
touching its own state. -/
lemma webVisit_expr_agrees :
    ∀ e : ASTNode, isExprB e = true →
      ∀ (stb : InterpSt) (stw : WebSt),
        stb.symbol_table = stw.symbol_table →
        webVisit e stw = (stw, (visit e stb).2) := by
  intro e
  induction e with
  | number v => intro _ stb stw _; rfl
  | var n =>
    intro _ stb stw hsym
    cases h : lookupVar stw.symbol_table n <;>
      simp only [webVisit, visit, hsym, h]
  | binop l op r ihl ihr =>
    intro he stb stw hsym
    simp only [isExprB, Bool.and_eq_true] at he
    have hl := ihl he.1 stb stw hsym
    have hr := ihr he.2 stb stw hsym
    rcases h1 : visit l stb with ⟨stb1, r1⟩
    have e1 : stb1 = stb := by
      have := visit_expr_state l he.1 stb; rw [h1] at this; exact this
    rw [e1] at h1
    rw [h1] at hl
    cases r1 with
    | error er => simp only [webVisit, visit, h1, hl]
    | ok lv =>
      rcases h2 : visit r stb with ⟨stb2, r2⟩
      have e2 : stb2 = stb := by
        have := visit_expr_state r he.2 stb; rw [h2] at this; exact this
      rw [e2] at h2
      rw [h2] at hr
      cases r2 with
      | error er => simp only [webVisit, visit, h1, h2, hl, hr]
      | ok rv =>
        cases lv <;> cases rv <;> simp only [webVisit, visit, h1, h2, hl, hr]
  | assign x e ih => intro he; simp [isExprB] at he
  | print e ih => intro he; simp [isExprB] at he

/-- Helper: per-statement correspondence between the base interpreter
(console effect) and the `WebInterpreter` (in-memory capture): the symbol
tables stay equal, the captured `output_lines` equal the console trace,
and the results agree except that the web print method returns the
printed value where the base returns `None`. -/
lemma webVisit_stmt_agrees :
    ∀ s : ASTNode, isStmtB s = true →
      ∀ (stb : InterpSt) (stw : WebSt),
        stb.symbol_table = stw.symbol_table →
        stb.console = stw.output_lines →
        ((webVisit s stw).1.symbol_table = (visit s stb).1.symbol_table ∧
         (webVisit s stw).1.output_lines = (visit s stb).1.console ∧
         ((webVisit s stw).2 = (visit s stb).2 ∨
          ((∃ v, (webVisit s stw).2 = .ok v) ∧ (visit s stb).2 = .ok none))) := by
  intro s hs stb stw hsym hcon
  cases s with
  | number v => simp [isStmtB] at hs
  | var n => simp [isStmtB] at hs
  | binop l op r => simp [isStmtB] at hs
  | assign x e =>
    simp only [isStmtB] at hs
    have hagree := webVisit_expr_agrees e hs stb stw hsym
    rcases h1 : visit e stb with ⟨stb1, r1⟩
    have e1 : stb1 = stb := by
      have := visit_expr_state e hs stb; rw [h1] at this; exact this
    rw [e1] at h1
    rw [h1] at hagree
    cases r1 with
    | error er =>
      refine ⟨?_, ?_, Or.inl ?_⟩ <;>
        simp only [visit, webVisit, h1, hagree] <;>
        first | exact hsym.symm | exact hcon.symm | rfl
    | ok v =>
      cases v with
      | none =>
        refine ⟨?_, ?_, Or.inl ?_⟩ <;>
          simp only [visit, webVisit, h1, hagree] <;>
          first | exact hsym.symm | exact hcon.symm | rfl
      | some val =>
        refine ⟨?_, ?_, Or.inl ?_⟩ <;>
          simp only [visit, webVisit, h1, hagree] <;>
          first | rw [hsym] | exact hcon.symm | rfl
  | print e =>
    simp only [isStmtB] at hs
    have hagree := webVisit_expr_agrees e hs stb stw hsym
    rcases h1 : visit e stb with ⟨stb1, r1⟩
    have e1 : stb1 = stb := by
      have := visit_expr_state e hs stb; rw [h1] at this; exact this
    rw [e1] at h1
    rw [h1] at hagree
    cases r1 with
    | error er =>
      refine ⟨?_, ?_, Or.inl ?_⟩ <;>
        simp only [visit, webVisit, h1, hagree] <;>
        first | exact hsym.symm | exact hcon.symm | rfl
    | ok v =>
      cases v with
      | none =>
        refine ⟨?_, ?_, Or.inl ?_⟩ <;>
          simp only [visit, webVisit, h1, hagree, pyStrOpt] <;>
          first | exact hsym.symm | rw [hcon] | rfl
      | some val =>
        refine ⟨?_, ?_, Or.inr ⟨⟨some val, ?_⟩, ?_⟩⟩ <;>
          simp only [visit, webVisit, h1, hagree, pyStrOpt] <;>
          first | exact hsym.symm | rw [hcon] | rfl

/-- Helper: whole-program correspondence between the base interpreter's
console trace and the `WebInterpreter`'s captured output. -/
lemma webVisitProgram_agrees :
    ∀ stmts : List ASTNode, (∀ s ∈ stmts, isStmtB s = true) →
      ∀ (stb : InterpSt) (stw : WebSt),
        stb.symbol_table = stw.symbol_table →
        stb.console = stw.output_lines →
        ((webVisitProgram stmts stw).1.symbol_table =
            (visitProgram stmts stb).1.symbol_table ∧
         (webVisitProgram stmts stw).1.output_lines =
            (visitProgram stmts stb).1.console ∧
         (webVisitProgram stmts stw).2 = (visitProgram stmts stb).2) := by
  intro stmts
  induction stmts with
  | nil => intro _ stb stw hsym hcon; exact ⟨hsym.symm, hcon.symm, rfl⟩
  | cons s rest ih =>
    intro hwf stb stw hsym hcon
    have hstmt := webVisit_stmt_agrees s (hwf s (by simp)) stb stw hsym hcon
    rcases hb : visit s stb with ⟨stb1, rb⟩
    rcases hw : webVisit s stw with ⟨stw1, rw2⟩
    rw [hb, hw] at hstmt
    simp only at hstmt
    rcases hstmt with ⟨hsym1, hcon1, hres⟩
    cases rb with
    | error er =>
      have : rw2 = .error er := by
        rcases hres with h | ⟨⟨v, hv⟩, hok⟩
        · exact h
        · cases hok
      subst this
      simp only [visitProgram, webVisitProgram, hb, hw]
      exact ⟨hsym1, hcon1, trivial⟩
    | ok v =>
      have : ∃ w, rw2 = .ok w := by
        rcases hres with h | ⟨⟨w, hw2⟩, _⟩
        · exact ⟨v, h⟩
        · exact ⟨w, hw2⟩
      rcases this with ⟨w, rfl⟩
      simp only [visitProgram, webVisitProgram, hb, hw]
      exact ih (fun t ht => hwf t (by simp [ht])) stb1 stw1 hsym1.symm hcon1.symm

/-- Claim C3 is false of the core interpreter: running `print(5);`
through `Interpreter.interpret` makes `visit_PrintNode` call the host
`print` — the console trace is `["5"]`, not empty — and `interpret`
returns Python `None` rather than an (output sequence, store) pair.  The
ordered output sequence exists only as the console side effect (or via
the `app.py` subclass), never as `interpret`'s return value. -/
theorem core_print_writes_console_and_interpret_returns_none :
    (visitProgram [.print (.number (.int 5))] ⟨[], []⟩).1.console ≠ [] ∧
    (visitProgram [.print (.number (.int 5))] ⟨[], []⟩).2 = .ok none ∧
    visitProgram [.print (.number (.int 5))] ⟨[], []⟩ =
      (⟨[], ["5"]⟩, .ok none) := by
  decide!

/-- Claim C3 as amended: each Print appends the value's string form to
the console via the host `print`, and the in-memory ordered output
sequence a caller receives is produced by the `app.py` subclass
`WebInterpreter`, whose captured `output_lines` (returned to the caller
together with the symbol table) coincide with the core's console trace,
with identical stores and identical success/failure. -/
theorem web_layer_captures_output_in_memory
    (stmts : List ASTNode) (h : ∀ s ∈ stmts, isStmtB s = true) :
    (webVisitProgram stmts ⟨[], [], []⟩).1.output_lines =
      (visitProgram stmts ⟨[], []⟩).1.console ∧
    (webVisitProgram stmts ⟨[], [], []⟩).1.symbol_table =
      (visitProgram stmts ⟨[], []⟩).1.symbol_table ∧
    (webVisitProgram stmts ⟨[], [], []⟩).2 = (visitProgram stmts ⟨[], []⟩).2 ∧
    webVisitProgram [.print (.number (.int 5))] ⟨[], [], []⟩ =
      (⟨[], ["5"], [.print "5" []]⟩, .ok none) := by
  have hall := webVisitProgram_agrees stmts h ⟨[], []⟩ ⟨[], [], []⟩ rfl rfl
  exact ⟨hall.2.1, hall.1, hall.2.2, by decide!⟩

/-- Witness for the amended C3 on `let x = 2; print(x); print(7);`. -/
theorem web_layer_captures_output_in_memory_witness :
    (webVisitProgram
        [ASTNode.assign "x" (.number (.int 2)),
         ASTNode.print (.var "x"),
         ASTNode.print (.number (.int 7))] ⟨[], [], []⟩).1.output_lines =
      (visitProgram
        [ASTNode.assign "x" (.number (.int 2)),
         ASTNode.print (.var "x"),
         ASTNode.print (.number (.int 7))] ⟨[], []⟩).1.console ∧
    (webVisitProgram
        [ASTNode.assign "x" (.number (.int 2)),
         ASTNode.print (.var "x"),
         ASTNode.print (.number (.int 7))] ⟨[], [], []⟩).1.symbol_table =
      (visitProgram
        [ASTNode.assign "x" (.number (.int 2)),
         ASTNode.print (.var "x"),
         ASTNode.print (.number (.int 7))] ⟨[], []⟩).1.symbol_table ∧
    (webVisitProgram
        [ASTNode.assign "x" (.number (.int 2)),
         ASTNode.print (.var "x"),
         ASTNode.print (.number (.int 7))] ⟨[], [], []⟩).2 =
      (visitProgram
        [ASTNode.assign "x" (.number (.int 2)),
         ASTNode.print (.var "x"),
         ASTNode.print (.number (.int 7))] ⟨[], []⟩).2 ∧
    webVisitProgram [.print (.number (.int 5))] ⟨[], [], []⟩ =
      (⟨[], ["5"], [.print "5" []]⟩, .ok none) :=
  web_layer_captures_output_in_memory
    [ASTNode.assign "x" (.number (.int 2)),
     ASTNode.print (.var "x"),
     ASTNode.print (.number (.int 7))]
    (by decide!)

/-- Helper: skipping whitespace never lengthens the remaining input. -/
lemma skipWsAux_length (cs : List Char) :
    ∀ l c, (skipWsAux cs l c).rest.length ≤ cs.length := by
  induction cs with
  | nil => intro l c; simp [skipWsAux]
  | cons a as ih =>
    intro l c
    rw [skipWsAux]
    split
    · split <;> exact (ih _ _).trans (Nat.le_succ _)
    · simp

/-- Helper: skipping a comment never lengthens the remaining input. -/
lemma skipCommentAux_length (cs : List Char) :
    ∀ l c, (skipCommentAux cs l c).rest.length ≤ cs.length := by
  induction cs with
  | nil => intro l c; simp [skipCommentAux]
  | cons a as ih =>
    intro l c
    rw [skipCommentAux]
    split
    · simp
    · exact (ih _ _).trans (Nat.le_succ _)

/-- Helper: the number scanner's leftover input is a suffix of what it
was given. -/
lemma takeNumRun_length (cs : List Char) :
    ∀ acc col, (takeNumRun cs acc col).2.1.length ≤ cs.length := by
  induction cs with
  | nil => intro acc col; simp [takeNumRun]
  | cons a as ih =>
    intro acc col
    rw [takeNumRun]
    split
    · exact (ih _ _).trans (Nat.le_succ _)
    · simp

/-- Helper: the identifier scanner's leftover input is a suffix of what
it was given. -/
lemma takeIdentRun_length (cs : List Char) :
    ∀ acc col, (takeIdentRun cs acc col).2.1.length ≤ cs.length := by
  induction cs with
  | nil => intro acc col; simp [takeIdentRun]
  | cons a as ih =>
    intro acc col
    rw [takeIdentRun]
    split
    · exact (ih _ _).trans (Nat.le_succ _)
    · simp

/-- Helper: a successful `number` scan yields a NUMBER token and leaves
exactly the scanner's leftover input. -/
lemma lexNumber_spec (st : LexState) (t : Token) (st' : LexState)
    (h : lexNumber st = .ok (t, st')) :
    t.type = .NUMBER ∧ st'.rest = (takeNumRun st.rest [] st.column).2.1 := by
  rw [lexNumber] at h
  split at h
  · split at h
    · cases h; exact ⟨rfl, rfl⟩
    · cases h
  · cases h; exact ⟨rfl, rfl⟩

/-- Helper: `number` never reports fuel exhaustion. -/
lemma lexNumber_no_fuel (st : LexState) : lexNumber st ≠ .error .fuel := by
  rw [lexNumber]
  split
  · split <;> simp
  · simp

/-- Helper: `identifier` yields an ID/LET/PRINT token and leaves exactly
the scanner's leftover input. -/
lemma lexIdentifier_spec (st : LexState) :
    ((lexIdentifier st).1.type = .ID ∨ (lexIdentifier st).1.type = .LET ∨
      (lexIdentifier st).1.type = .PRINT) ∧
    (lexIdentifier st).2.rest = (takeIdentRun st.rest [] st.column).2.1 := by
  rw [lexIdentifier]
  constructor
  · split
    · exact Or.inr (Or.inl rfl)
    · split
      · exact Or.inr (Or.inr rfl)
      · exact Or.inl rfl
  · rfl

/-- Helper: a successful operator/delimiter scan yields a non-EOF token
and consumes exactly the dispatched character. -/
lemma lexOperator_spec (c : Char) (cs : List Char) (st : LexState)
    (t : Token) (st' : LexState) (h : lexOperator c cs st = .ok (t, st')) :
    t.type ≠ .EOF ∧ st'.rest = cs := by
  rw [lexOperator] at h
  split_ifs at h
  all_goals simp only [lexOp] at h
  all_goals cases h
  all_goals exact ⟨fun he => (nomatch he), rfl⟩

/-- Helper: a successful `get_next_token` consumes no input exactly for
the EOF token (which it emits with empty remaining input at the final
position) and strictly consumes input for every other token. -/
lemma getNextTokenF_spec :
    ∀ (f : Nat) (st : LexState) (t : Token) (st' : LexState),
      getNextTokenF f st = .ok (t, st') →
      st'.rest.length ≤ st.rest.length ∧
      (t.type ≠ .EOF → st'.rest.length < st.rest.length) ∧
      (t.type = .EOF → st'.rest = [] ∧
        t = ⟨.EOF, none, st'.line, st'.column⟩) := by
  intro f
  induction f with
  | zero => intro st t st' h; cases h
  | succ f ih =>
    intro st t st' h
    rw [getNextTokenF] at h
    split at h
    · -- end of input: the EOF token, state unchanged
      rename_i heq
      cases h
      exact ⟨Nat.le_refl _, fun hne => absurd rfl hne, fun _ => ⟨heq, rfl⟩⟩
    · rename_i c cs heq
      rw [heq]
      split_ifs at h with h1 h2 h3 h4
      · -- whitespace: one step of skipping strictly consumes
        have hlen : (skipWsAux (c :: cs) st.line st.column).rest.length ≤
            cs.length := by
          rw [skipWsAux, if_pos h1]
          split <;> exact skipWsAux_length _ _ _
        obtain ⟨ha, hb, hc⟩ := ih _ t st' h
        have hcs : st'.rest.length ≤ cs.length := le_trans ha hlen
        exact ⟨hcs.trans (Nat.le_succ _), fun _ => Nat.lt_succ_of_le hcs, hc⟩
      · -- comment: `/` is not a newline, so one step strictly consumes
        have hcslash : c = '/' := by
          rcases Bool.and_eq_true_iff.mp h2 with ⟨hl, -⟩
          exact decide_eq_true_eq.mp hl
        have hlen : (skipCommentAux (c :: cs) st.line st.column).rest.length ≤
            cs.length := by
          rw [skipCommentAux, if_neg (by rw [hcslash]; decide)]
          exact skipCommentAux_length _ _ _
        obtain ⟨ha, hb, hc⟩ := ih _ t st' h
        have hcs : st'.rest.length ≤ cs.length := le_trans ha hlen
        exact ⟨hcs.trans (Nat.le_succ _), fun _ => Nat.lt_succ_of_le hcs, hc⟩
      · -- number: the leading digit is consumed
        obtain ⟨htype, hr⟩ := lexNumber_spec _ t st' h
        rw [heq] at hr
        have hlen : st'.rest.length ≤ cs.length := by
          rw [hr, takeNumRun, if_pos (by simp [h3])]
          exact takeNumRun_length _ _ _
        refine ⟨hlen.trans (Nat.le_succ _), fun _ => Nat.lt_succ_of_le hlen,
          fun he => absurd (htype ▸ he) (by simp)⟩
      · -- identifier: the leading letter/underscore is consumed
        rcases hid : lexIdentifier st with ⟨tok, stNew⟩
        rw [hid] at h
        cases h
        obtain ⟨htype, hr⟩ := lexIdentifier_spec st
        rw [hid] at htype hr
        simp only at htype hr
        rw [heq] at hr
        have hstart : (pyIsAlnum c || c = '_') = true := by
          rcases Bool.or_eq_true_iff.mp h4 with ha | ha
          · exact Bool.or_eq_true_iff.mpr (Or.inl (by simp [pyIsAlnum, ha]))
          · exact Bool.or_eq_true_iff.mpr (Or.inr ha)
        have hlen : st'.rest.length ≤ cs.length := by
          rw [hr, takeIdentRun, if_pos hstart]
          exact takeIdentRun_length _ _ _
        refine ⟨hlen.trans (Nat.le_succ _), fun _ => Nat.lt_succ_of_le hlen,
          fun he => ?_⟩
        rcases htype with ht | ht | ht <;> rw [ht] at he <;> cases he
      · -- operator/delimiter: one character consumed
        obtain ⟨hne, hr⟩ := lexOperator_spec c cs st t st' h
        have hlen : st'.rest.length < (c :: cs).length := by
          rw [hr]; exact Nat.lt_succ_self _
        exact ⟨Nat.le_of_lt hlen, fun _ => hlen, fun he => absurd he hne⟩

/-- Helper: the operator arm never reports fuel exhaustion. -/
lemma lexOperator_no_fuel (c : Char) (cs : List Char) (st : LexState) :
    lexOperator c cs st ≠ .error .fuel := by
  rw [lexOperator]
  split_ifs <;> simp

/-- Helper: with fuel exceeding the remaining input length,
`get_next_token` never reports fuel exhaustion. -/
lemma getNextTokenF_no_fuel :
    ∀ (f : Nat) (st : LexState), st.rest.length < f →
      getNextTokenF f st ≠ .error .fuel := by
  intro f
  induction f with
  | zero => intro st h; exact absurd h (Nat.not_lt_zero _)
  | succ f ih =>
    intro st hf
    rw [getNextTokenF]
    split
    · simp
    · rename_i c cs heq
      rw [heq] at hf
      simp only [List.length_cons] at hf
      split_ifs with h1 h2 h3 h4
      · have hlen : (skipWsAux (c :: cs) st.line st.column).rest.length ≤
            cs.length := by
          rw [skipWsAux, if_pos h1]
          split <;> exact skipWsAux_length _ _ _
        exact ih _ (Nat.lt_of_le_of_lt hlen (by omega))
      · have hcslash : c = '/' := by
          rcases Bool.and_eq_true_iff.mp h2 with ⟨hl, -⟩
          exact decide_eq_true_eq.mp hl
        have hlen : (skipCommentAux (c :: cs) st.line st.column).rest.length ≤
            cs.length := by
          rw [skipCommentAux, if_neg (by rw [hcslash]; decide)]
          exact skipCommentAux_length _ _ _
        exact ih _ (Nat.lt_of_le_of_lt hlen (by omega))
      · exact lexNumber_no_fuel st
      · simp
      · exact lexOperator_no_fuel c cs st

/-- Helper: `get_next_token` with its canonical fuel satisfies the
consumption spec. -/
lemma getNextToken_spec (st : LexState) (t : Token) (st' : LexState)
    (h : getNextToken st = .ok (t, st')) :
    st'.rest.length ≤ st.rest.length ∧
    (t.type ≠ .EOF → st'.rest.length < st.rest.length) ∧
    (t.type = .EOF → st'.rest = [] ∧
      t = ⟨.EOF, none, st'.line, st'.column⟩) :=
  getNextTokenF_spec _ st t st' h

/-- Helper: `get_next_token` never reports fuel exhaustion. -/
lemma getNextToken_no_fuel (st : LexState) : getNextToken st ≠ .error .fuel :=
  getNextTokenF_no_fuel _ st (Nat.lt_succ_self _)

/-- Helper: once `get_next_token` has produced EOF, calling it again
returns the same EOF token and the same state. -/
lemma getNextToken_eof_idem (st : LexState) (t : Token) (st' : LexState)
    (h : getNextToken st = .ok (t, st')) (he : t.type = .EOF) :
    getNextToken st' = .ok (t, st') := by
  obtain ⟨-, -, h3⟩ := getNextToken_spec st t st' h
  obtain ⟨hrest, ht⟩ := h3 he
  rw [getNextToken, hrest, ht, getNextTokenF]
  split
  · rfl
  · rename_i c cs heq2
    rw [hrest] at heq2
    cases heq2

/-- Helper: with fuel exceeding the remaining input length, `tokenize`
never reports fuel exhaustion. -/
lemma tokenizeF_no_fuel :
    ∀ (f : Nat) (st : LexState), st.rest.length < f →
      tokenizeF f st ≠ .error .fuel := by
  intro f
  induction f with
  | zero => intro st h; exact absurd h (Nat.not_lt_zero _)
  | succ f ih =>
    intro st hf
    rw [tokenizeF]
    rcases hg : getNextToken st with e | ⟨t, st'⟩
    · intro hc
      cases hc
      exact getNextToken_no_fuel st hg
    · dsimp only
      by_cases ht : t.type = .EOF
      · rw [if_pos ht]; simp
      · rw [if_neg ht]
        obtain ⟨-, hlt, -⟩ := getNextToken_spec st t st' hg
        have hlen : st'.rest.length < f := by
          have := hlt ht; omega
        rcases hr : tokenizeF f st' with e' | ts
        · intro hc
          cases hc
          exact ih st' hlen hr
        · simp

/-- Helper: every successful `tokenize` run ends in exactly one EOF
token: the last token is EOF and no earlier one is. -/
lemma tokenizeF_ends :
    ∀ (f : Nat) (st : LexState) (l : List Token),
      tokenizeF f st = .ok l →
      ∃ ts t, l = ts ++ [t] ∧ t.type = .EOF ∧ ∀ t' ∈ ts, t'.type ≠ .EOF := by
  intro f
  induction f with
  | zero => intro st l h; cases h
  | succ f ih =>
    intro st l h
    rw [tokenizeF] at h
    rcases hg : getNextToken st with e | ⟨t, st'⟩ <;> rw [hg] at h
    · cases h
    · dsimp only at h
      by_cases ht : t.type = .EOF
      · rw [if_pos ht] at h
        cases h
        exact ⟨[], t, rfl, ht, by simp⟩
      · rw [if_neg ht] at h
        rcases hr : tokenizeF f st' with e' | ts <;> rw [hr] at h
        · cases h
        · cases h
          obtain ⟨ts2, t2, rfl, he2, hall⟩ := ih st' ts hr
          refine ⟨t :: ts2, t2, by simp, he2, fun t' ht' => ?_⟩
          rcases List.mem_cons.mp ht' with rfl | hmem
          · exact ht
          · exact hall t' hmem

/-- Claim C8: for every source text `tokenize` terminates without
exhausting its fuel and, when it succeeds, its token sequence ends in
exactly one END_OF_INPUT token (the last token is EOF, no earlier token
is); and once `get_next_token` has produced EOF, every further call
returns the same EOF token again with unchanged state (idempotent
tail). -/
theorem token_stream_ends_in_single_idempotent_eof :
    (∀ text : String, tokenize text ≠ .error .fuel) ∧
    (∀ (text : String) (l : List Token), tokenize text = .ok l →
      ∃ ts t, l = ts ++ [t] ∧ t.type = .EOF ∧ ∀ t' ∈ ts, t'.type ≠ .EOF) ∧
    (∀ (st : LexState) (t : Token) (st' : LexState),
      getNextToken st = .ok (t, st') → t.type = .EOF →
      getNextToken st' = .ok (t, st')) := by
  refine ⟨?_, ?_, getNextToken_eof_idem⟩
  · intro text
    apply tokenizeF_no_fuel
    show text.toList.length < text.length + 1
    simp
  · intro text l h
    exact tokenizeF_ends _ _ l h

/-- Witness for C8 on the text `"let a"` and on a spent lexer state. -/
theorem token_stream_ends_in_single_idempotent_eof_witness :
    tokenize "let a" ≠ .error .fuel ∧
    (∃ ts t,
      ([⟨.LET, some (.str "let"), 1, 1⟩, ⟨.ID, some (.str "a"), 1, 5⟩,
        ⟨.EOF, none, 1, 6⟩] : List Token) = ts ++ [t] ∧
      t.type = .EOF ∧ ∀ t' ∈ ts, t'.type ≠ .EOF) ∧
    getNextToken ⟨[], 3, 7⟩ = .ok (⟨.EOF, none, 3, 7⟩, ⟨[], 3, 7⟩) := by
  have h := token_stream_ends_in_single_idempotent_eof
  exact ⟨h.1 "let a", h.2.1 "let a" _ (by decide!),
    h.2.2 ⟨[], 3, 7⟩ ⟨.EOF, none, 3, 7⟩ ⟨[], 3, 7⟩ (by decide!) rfl⟩

/-- Witness for C6: integers `3`, `4`, a float operand, and `10 / 5`. -/
theorem operators_preserve_intness_division_always_float_witness :
    binOpApply "+" (.int 3) (.int 4) = .ok (.int (3 + 4)) ∧
    (∃ q, Value.float (5 / 2) = Value.float q ∨ False) ∧
    (∃ q, (Value.float (7 / 2) : Value) = .float q) ∧
    binOpApply "/" (.int 10) (.int 5) = .ok (.float 2) ∧
    pyEq (.float 2) (.int 2) = true := by
  have h := operators_preserve_intness_division_always_float
  refine ⟨(h.1 3 4).1, ⟨5 / 2, Or.inl rfl⟩, ?_, h.2.2.2.1, h.2.2.2.2⟩
  exact h.2.1 "+" (.float (5 / 2)) (.int 1) (.float (7 / 2)) (Or.inl rfl)
    (Or.inl ⟨5 / 2, rfl⟩) (by decide!)

end PyInterp
